import Mathlib

/-!
Shallow embedding of the article enrichment and labeling pipeline of
`data_loader.py` (CfA media narratives monitoring dashboard).

Python strings are modelled as Lean `String`; nullable values (`None` / pandas
`NaN`) as `Option String`; float scores as `ℚ` (all constants in the source are
decimal literals and all comparisons are far from representation boundaries);
Python dicts keyed by URL as association lists; Python sets as lists with
set-style insertion.  Code that can raise is modelled in `Except String`,
the error string naming the Python exception class.
-/

deriving instance DecidableEq for Except

namespace CfA

/-- Substring containment on char lists: some suffix starts with the needle. -/
def containsSub (needle : List Char) : List Char → Bool
  | [] => needle.isEmpty
  | c :: rest => needle.isPrefixOf (c :: rest) || containsSub needle rest

/-- Python `needle in hay` (substring containment on code points). -/
def pyIn (needle hay : String) : Bool :=
  containsSub needle.toList hay.toList

/-- Python `s.lower()` (ASCII case folding suffices for this code base). -/
def pyLower (s : String) : String :=
  ⟨s.toList.map Char.toLower⟩

/-- Python `s.startswith(p)`. -/
def pyStartsWith (s p : String) : Bool :=
  p.toList.isPrefixOf s.toList

/-- Python `s.endswith(p)`. -/
def pyEndsWith (s p : String) : Bool :=
  p.toList.isSuffixOf s.toList

/-- Python `s.strip()`: drop leading and trailing whitespace. -/
def pyStrip (s : String) : String :=
  ⟨(s.toList.dropWhile Char.isWhitespace).reverse.dropWhile Char.isWhitespace |>.reverse⟩

/-- Python `s[:n]`. -/
def pyTake (s : String) (n : Nat) : String :=
  ⟨s.toList.take n⟩

/-- `str(x or '')` applied to a nullable string: `None` becomes `""`. -/
def pyStrOr (x : Option String) : String := x.getD ""

/-- Association-list lookup, modelling Python `dict[key]` / `key in dict`. -/
def alookup {α : Type} : List (String × α) → String → Option α
  | [], _ => none
  | (k, v) :: rest, u => if k = u then some v else alookup rest u

/-- Association-list store, modelling Python `dict[key] = value`. -/
def setKey {α : Type} : List (String × α) → String → α → List (String × α)
  | [], k, v => [(k, v)]
  | (k', v') :: rest, k, v =>
      if k' = k then (k, v) :: rest else (k', v') :: setKey rest k v

/-- Python `set.add`. -/
def addFailed (s : List String) (u : String) : List String :=
  if s.contains u then s else u :: s

/-! ### Keyword table and label scorer (`assign_labels_and_scores`) -/

/-- `KEYWORD_LABELS` from `data_loader.py`, verbatim. -/
def KEYWORD_LABELS : List (String × List String) := [
  ("Pro-Russia", ["russia", "kremlin", "putin", "russian forces", "moscow",
    "russian influence", "russia partnership"]),
  ("Anti-West", ["western sanctions", "western interference", "nato",
    "eu policy", "western powers", "western interests", "western hypocrisy"]),
  ("Anti-France", ["france colonialism", "french influence", "paris policy",
    "french troops", "francafrique", "anti-france sentiment", "french withdrawal"]),
  ("Anti-US", ["anti-american", "us aggression", "us interference", "us sanctions",
    "american hegemony", "us imperialism", "us military presence", "us meddling",
    "us failed policy", "us-led", "criticism of us", "condemn us", "us withdraw"]),
  ("Sensationalist", ["shocking", "urgent", "breaking news", "exclusive",
    "bombshell", "crisis", "scandal", "explosive", "reveal", "warning",
    "catastrophe", "unprecedented"]),
  ("Opinion", ["opinion", "analysis", "commentary", "viewpoint", "perspective",
    "column", "editorial", "blog", "critique"]),
  ("Business", ["economy", "business", "market", "finance", "investment",
    "trade", "growth", "industry", "currency", "revenue", "jobs", "commerce",
    "development"]),
  ("Politics", ["government", "election", "parliament", "president", "policy",
    "diplomacy", "governance", "democracy", "coup", "protest", "legislation",
    "political party", "reforms"])]

/-- The label columns created by `assign_labels_and_scores`:
the keyword labels plus the catch-alls. -/
def LABELS : List String := KEYWORD_LABELS.map Prod.fst ++ ["Factual", "Neutral"]

/-- The word-boundary approximation of the source: keyword surrounded by
spaces, or at the start/end of the combined string. -/
def keywordHit (combined kw : String) : Bool :=
  pyIn (" " ++ kw ++ " ") combined ||
  pyStartsWith combined (kw ++ " ") ||
  pyEndsWith combined (" " ++ kw)

/-- Running score of one label: `score += 0.2` per keyword hit. -/
def rawScore (combined : String) (kws : List String) : ℚ :=
  kws.foldl (fun s kw => if keywordHit combined kw then s + 2/10 else s) 0

/-- `f"{str(headline or '').lower()} {str(text or '').lower()}"`. -/
def combinedText (headline text : Option String) : String :=
  pyLower (pyStrOr headline) ++ " " ++ pyLower (pyStrOr text)

/-- Raw (pre-clip) score of every keyword label for one combined string. -/
def labelRaw (combined : String) : List (String × ℚ) :=
  KEYWORD_LABELS.map (fun p => (p.1, rawScore combined p.2))

/-- `found_strong_labels`: some keyword label reached a score `>= 0.3`.
(The source checks it inside `if score > 0`, which is equivalent.) -/
def strongLabels (combined : String) : Bool :=
  (labelRaw combined).any (fun p => decide ((3/10 : ℚ) ≤ p.2))

/-- The label cells written for a single row: a keyword-label cell is
`min score 1.0` when `score > 0`, else the `0.0` it was initialized to;
`Factual`/`Neutral` get jitter around `0.7`/`0.6` when no strong label
was found; finally every label is clipped with `upper=1.0`. -/
def scoreRow (headline text : Option String) (jF jN : ℚ) : List (String × ℚ) :=
  let combined := combinedText headline text
  let base := (labelRaw combined).map
    (fun p => (p.1, if (0 : ℚ) < p.2 then min p.2 1 else 0))
  let catchAll := if strongLabels combined then
      [("Factual", (0 : ℚ)), ("Neutral", (0 : ℚ))]
    else
      [("Factual", 7/10 + jF), ("Neutral", 6/10 + jN)]
  (base ++ catchAll).map (fun p => (p.1, min p.2 1))

/-- A dataframe row as consumed and produced by `assign_labels_and_scores`. -/
structure Row where
  headline : Option String
  url : Option String
  text : Option String
  urlToImage : Option String
  date_published : Option String
  source_name : Option String
  scores : List (String × ℚ)
deriving DecidableEq, Repr

/-- The row loop of `assign_labels_and_scores`; `jF i`, `jN i` are the
`random.uniform(-0.1, 0.1)` draws of row `i`. -/
def assignFrom (jF jN : Nat → ℚ) : Nat → List Row → List Row
  | _, [] => []
  | i, r :: rs =>
      { r with scores := scoreRow r.headline r.text (jF i) (jN i) } ::
        assignFrom jF jN (i + 1) rs

/-- `assign_labels_and_scores(df)`, with the random draws made explicit. -/
def assign_labels_and_scores (df : List Row) (jF jN : Nat → ℚ) : List Row :=
  assignFrom jF jN 0 df

/-! ### Image validator (`is_valid_image_url`) -/

/-- The blocked-substring list of the source. -/
def blocked : List String :=
  ["logo", "ad.", "banner", "sponsor", "doubleclick", "placeholder", "icon", "gif"]

/-- `is_valid_image_url(url)` for a string argument: every blocked word must
be absent from the lower-cased URL. -/
def is_valid_image_url (url : String) : Bool :=
  blocked.all (fun word => !(pyIn word (pyLower url)))

/-- `is_valid_image_url` on a nullable argument: `None.lower()` raises
`AttributeError` in Python, so the null case is an error, not a value. -/
def is_valid_image_url_opt : Option String → Except String Bool
  | none => .error "AttributeError"
  | some u => .ok (is_valid_image_url u)

/-! ### Fetcher (`fetch_content_with_retry`)

The network and the HTML extraction heuristics are the environment of this
function; they are modelled by an oracle giving the outcome of each GET
attempt.  `success content` is an HTTP 2xx response whose extraction stage
produced `content` (possibly `none` when no selector matched — the source
then runs `return None` and ends the loop). -/

/-- Outcome of one `requests.get` attempt, attempt number as the index. -/
inductive Attempt where
  | success (content : Option String)
  | timeout
  | httpError (code : Nat)
  | netError
  | otherError
deriving DecidableEq, Repr

/-- `True` when the attempt's exception path falls through to
`time.sleep` and another loop iteration. -/
def retryable : Attempt → Bool
  | .success _ => false
  | .timeout => true
  | .httpError code => !(code == 403 || code == 404)
  | .netError => true
  | .otherError => true

/-- Result of `fetch_content_with_retry`: the returned value, how many GET
attempts were made, and the `time.sleep` durations issued, in order. -/
structure FetchResult where
  content : Option String
  attempts : Nat
  sleeps : List Nat
deriving DecidableEq, Repr

/-- The retry loop, at loop index `i` with the given attempts remaining. -/
def fetchFrom (att : Nat → Attempt) (delay : Nat) : Nat → Nat → FetchResult
  | _, 0 => ⟨none, 0, []⟩
  | i, rem + 1 =>
      match att i with
      | .success c => ⟨c, 1, []⟩
      | .httpError code =>
          if code == 403 || code == 404 then ⟨none, 1, []⟩
          else
            let r := fetchFrom att delay (i + 1) rem
            ⟨r.content, r.attempts + 1, delay * (i + 1) :: r.sleeps⟩
      | .timeout =>
          let r := fetchFrom att delay (i + 1) rem
          ⟨r.content, r.attempts + 1, delay * (i + 1) :: r.sleeps⟩
      | .netError =>
          let r := fetchFrom att delay (i + 1) rem
          ⟨r.content, r.attempts + 1, delay * (i + 1) :: r.sleeps⟩
      | .otherError =>
          let r := fetchFrom att delay (i + 1) rem
          ⟨r.content, r.attempts + 1, delay * (i + 1) :: r.sleeps⟩

/-- `fetch_content_with_retry(url, fetch_type, retries, delay)`; the url and
fetch type are already folded into the attempt oracle `att`. -/
def fetch_content_with_retry (att : Nat → Attempt) (retries delay : Nat) : FetchResult :=
  fetchFrom att delay 0 retries

/-! ### Enrichment orchestrator (`enrich_articles_with_scraping`) -/

/-- One article row of the dataframe passed to enrichment.  The `url` column
is the non-null fetch key. -/
structure Article where
  headline : Option String
  url : String
  text : Option String
  urlToImage : Option String
deriving DecidableEq, Repr

/-- `st.session_state.scraped_data`. -/
structure Cache where
  urlToText : List (String × String)
  urlToImage : List (String × String)
  failedSnippet : List String
  failedImage : List String
deriving DecidableEq, Repr

/-- The cache created on first use of the session state. -/
def emptyCache : Cache := ⟨[], [], [], []⟩

/-- The two fetch types. -/
inductive Kind where
  | snippet
  | image
deriving DecidableEq, Repr

/-- The environment of an enrichment run: for each url and fetch type, the
outcome of each GET attempt. -/
def Oracle : Type := String → Kind → Nat → Attempt

/-- `pd.isna(x) or not str(x).strip()`: the field still needs scraping. -/
def needsField : Option String → Bool
  | none => true
  | some s => pyStrip s = ""

/-- Python truthiness of an optional string (`if snippet:`): `None` and the
empty string are falsy. -/
def pyTruthy : Option String → Option String
  | none => none
  | some s => if s = "" then none else some s

/-- The fallback snippet expression of the source:
`df[df['url'] == url]['headline'].iloc[0][:250] + "..."` when a row with the
url exists, else `"No snippet."`.  When the matching row's headline is null,
`.iloc[0]` yields `NaN` and slicing it raises `TypeError`. -/
def snippetFallback (df : List Article) (url : String) : Except String String :=
  match df.find? (fun a => a.url == url) with
  | none => .ok "No snippet."
  | some a =>
      match a.headline with
      | some h => .ok (pyTake h 250 ++ "...")
      | none => .error "TypeError"

/-- Whether a row makes its url eligible for the worklist (the condition of
the `urls_to_fetch` loop). -/
def condA (c : Cache) (a : Article) : Bool :=
  (needsField a.text && (alookup c.urlToText a.url).isNone &&
    !(c.failedSnippet.contains a.url)) ||
  (needsField a.urlToImage && (alookup c.urlToImage a.url).isNone &&
    !(c.failedImage.contains a.url))

/-- `urls_to_fetch` (the source appends per row without deduplication). -/
def urlsToFetch (c : Cache) : List Article → List String
  | [] => []
  | a :: rest => if condA c a then a.url :: urlsToFetch c rest else urlsToFetch c rest

/-- The `# Fetch snippet` block of the loop body: guarded by
`url not in scraped_text and url not in failed_snippets`. -/
def snippetPhase (df : List Article) (o : Oracle) (url : String) (c : Cache) :
    Except String (Cache × Nat) :=
  if (alookup c.urlToText url).isNone && !(c.failedSnippet.contains url) then
    match pyTruthy (fetch_content_with_retry (o url .snippet) 3 1).content with
    | some s => .ok ({ c with urlToText := setKey c.urlToText url s }, 1)
    | none =>
        let c1 := { c with failedSnippet := addFailed c.failedSnippet url }
        match snippetFallback df url with
        | .ok fb => .ok ({ c1 with urlToText := setKey c1.urlToText url fb }, 1)
        | .error e => .error e
  else .ok (c, 0)

/-- The `# Fetch image` block: on a falsy result the url is only added to
`failed_images`; no image value is stored. -/
def imagePhase (o : Oracle) (url : String) (c1 : Cache) (n1 : Nat) :
    Except String (Cache × Nat) :=
  if (alookup c1.urlToImage url).isNone && !(c1.failedImage.contains url) then
    match pyTruthy (fetch_content_with_retry (o url .image) 3 1).content with
    | some s => .ok ({ c1 with urlToImage := setKey c1.urlToImage url s }, n1 + 1)
    | none => .ok ({ c1 with failedImage := addFailed c1.failedImage url }, n1 + 1)
  else .ok (c1, n1)

/-- The body of the `for url in urls_to_fetch` loop for one url: snippet
phase then image phase.  Returns the updated cache and the number of
`fetch_content_with_retry` calls made (network calls happen only there). -/
def processUrl (df : List Article) (o : Oracle) (url : String) (c : Cache) :
    Except String (Cache × Nat) :=
  match snippetPhase df o url c with
  | .error e => .error e
  | .ok (c1, n1) => imagePhase o url c1 n1

/-- The whole `for url in urls_to_fetch` loop. -/
def processUrls (df : List Article) (o : Oracle) : List String → Cache →
    Except String (Cache × Nat)
  | [], c => .ok (c, 0)
  | u :: us, c =>
      match processUrl df o u c with
      | .error e => .error e
      | .ok (c1, n1) =>
          match processUrls df o us c1 with
          | .error e => .error e
          | .ok (c2, n2) => .ok (c2, n1 + n2)

/-- `df['col'].map(cache).fillna(df['col'])` for one cell. -/
def fillna (mapped orig : Option String) : Option String :=
  match mapped with
  | some v => some v
  | none => orig

/-- Write the cache back onto one row (the final two column assignments). -/
def applyCache (c : Cache) (a : Article) : Article :=
  { a with
    text := fillna (alookup c.urlToText a.url) a.text
    urlToImage := fillna (alookup c.urlToImage a.url) a.urlToImage }

/-- Result of an enrichment run. -/
structure EnrichResult where
  df : List Article
  cache : Cache
  fetchCalls : Nat
deriving DecidableEq, Repr

/-- `enrich_articles_with_scraping(df)` with the session cache and the
network oracle explicit (`SKIP_WEB_SCRAPING` is `False` in the source, so
only that path is modelled). -/
def enrich_articles_with_scraping (o : Oracle) (df : List Article) (c : Cache) :
    Except String EnrichResult :=
  let utf := urlsToFetch c df
  if utf.isEmpty then
    .ok ⟨df.map (applyCache c), c, 0⟩
  else
    match processUrls df o utf c with
    | .error e => .error e
    | .ok (c2, n) => .ok ⟨df.map (applyCache c2), c2, n⟩

/-! ### Verification layer -/

/-- The url is settled for the snippet kind: cached or permanently failed
(the negation of `url not in scraped_text and url not in failed_snippets`). -/
def covTextB (c : Cache) (u : String) : Bool :=
  (alookup c.urlToText u).isSome || c.failedSnippet.contains u

/-- The url is settled for the image kind. -/
def covImageB (c : Cache) (u : String) : Bool :=
  (alookup c.urlToImage u).isSome || c.failedImage.contains u

/-- Cache extension: everything stored before is still stored, unchanged. -/
structure CacheLE (c c2 : Cache) : Prop where
  text : ∀ u v, alookup c.urlToText u = some v → alookup c2.urlToText u = some v
  img : ∀ u v, alookup c.urlToImage u = some v → alookup c2.urlToImage u = some v
  fsnip : ∀ u, u ∈ c.failedSnippet → u ∈ c2.failedSnippet
  fimg : ∀ u, u ∈ c.failedImage → u ∈ c2.failedImage

/-- Well-formedness of the text half of the cache, as established by every
run: a failed url still has a (fallback) text entry, and every stored
snippet is non-empty. -/
def wfTextCache (c : Cache) : Prop :=
  (∀ u, u ∈ c.failedSnippet → (alookup c.urlToText u).isSome = true) ∧
  (∀ u v, alookup c.urlToText u = some v → v ≠ "")

theorem contains_iff_mem {l : List String} {u : String} :
    l.contains u = true ↔ u ∈ l :=
  List.elem_iff

theorem alookup_setKey {α : Type} (m : List (String × α)) (k u : String) (v : α) :
    alookup (setKey m k v) u = if k = u then some v else alookup m u := by
  induction m with
  | nil => simp [setKey, alookup]
  | cons p rest ih =>
      obtain ⟨k1, v1⟩ := p
      by_cases h1 : k1 = k
      · subst h1
        by_cases h2 : k1 = u <;> simp [setKey, alookup, h2]
      · by_cases h2 : k1 = u
        · subst h2
          simp [setKey, alookup, h1, Ne.symm h1]
        · simp [setKey, alookup, h1, h2, ih]

theorem mem_addFailed_iff (s : List String) (u x : String) :
    x ∈ addFailed s u ↔ x = u ∨ x ∈ s := by
  unfold addFailed
  split
  · rename_i h
    constructor
    · exact fun hx => Or.inr hx
    · rintro (rfl | hx)
      · exact contains_iff_mem.mp h
      · exact hx
  · simp [List.mem_cons]

theorem CacheLE.refl (c : Cache) : CacheLE c c :=
  ⟨fun _ _ h => h, fun _ _ h => h, fun _ h => h, fun _ h => h⟩

theorem CacheLE.trans {c1 c2 c3 : Cache} (h1 : CacheLE c1 c2) (h2 : CacheLE c2 c3) :
    CacheLE c1 c3 :=
  ⟨fun u v h => h2.text u v (h1.text u v h),
   fun u v h => h2.img u v (h1.img u v h),
   fun u h => h2.fsnip u (h1.fsnip u h),
   fun u h => h2.fimg u (h1.fimg u h)⟩

theorem covTextB_mono {c c2 : Cache} (h : CacheLE c c2) {u : String}
    (hc : covTextB c u = true) : covTextB c2 u = true := by
  unfold covTextB at hc ⊢
  rcases Bool.or_eq_true_iff.mp hc with hs | hf
  · obtain ⟨v, hv⟩ := Option.isSome_iff_exists.mp hs
    exact Bool.or_eq_true_iff.mpr (Or.inl (by simp [h.text u v hv]))
  · exact Bool.or_eq_true_iff.mpr (Or.inr
      (contains_iff_mem.mpr (h.fsnip u (contains_iff_mem.mp hf))))

theorem covImageB_mono {c c2 : Cache} (h : CacheLE c c2) {u : String}
    (hc : covImageB c u = true) : covImageB c2 u = true := by
  unfold covImageB at hc ⊢
  rcases Bool.or_eq_true_iff.mp hc with hs | hf
  · obtain ⟨v, hv⟩ := Option.isSome_iff_exists.mp hs
    exact Bool.or_eq_true_iff.mpr (Or.inl (by simp [h.img u v hv]))
  · exact Bool.or_eq_true_iff.mpr (Or.inr
      (contains_iff_mem.mpr (h.fimg u (contains_iff_mem.mp hf))))

theorem guard_text (c : Cache) (url : String) :
    ((alookup c.urlToText url).isNone && !(c.failedSnippet.contains url)) =
      !(covTextB c url) := by
  unfold covTextB
  cases alookup c.urlToText url <;> simp

theorem guard_img (c : Cache) (url : String) :
    ((alookup c.urlToImage url).isNone && !(c.failedImage.contains url)) =
      !(covImageB c url) := by
  unfold covImageB
  cases alookup c.urlToImage url <;> simp

theorem snippetPhase_ok {df : List Article} {o : Oracle} {url : String}
    {c c1 : Cache} {n1 : Nat}
    (h : snippetPhase df o url c = .ok (c1, n1)) :
    (covTextB c url = true ∧ c1 = c ∧ n1 = 0) ∨
    (covTextB c url = false ∧ n1 = 1 ∧
      ((∃ s, pyTruthy (fetch_content_with_retry (o url .snippet) 3 1).content = some s ∧
          c1 = { c with urlToText := setKey c.urlToText url s }) ∨
       (pyTruthy (fetch_content_with_retry (o url .snippet) 3 1).content = none ∧
        ∃ fb, snippetFallback df url = .ok fb ∧
          c1 = { c with failedSnippet := addFailed c.failedSnippet url,
                        urlToText := setKey c.urlToText url fb }))) := by
  unfold snippetPhase at h
  rw [guard_text] at h
  by_cases hc : covTextB c url
  · left
    rw [hc] at h
    simp only [Bool.not_true] at h
    rw [if_neg (by decide)] at h
    cases h
    exact ⟨hc, rfl, rfl⟩
  · right
    rw [Bool.not_eq_true] at hc
    rw [hc] at h
    simp only [Bool.not_false, if_pos rfl] at h
    cases ht : pyTruthy (fetch_content_with_retry (o url .snippet) 3 1).content with
    | some s =>
        rw [ht] at h
        cases h
        exact ⟨hc, rfl, Or.inl ⟨s, rfl, rfl⟩⟩
    | none =>
        rw [ht] at h
        cases hfb : snippetFallback df url with
        | ok fb =>
            rw [hfb] at h
            cases h
            exact ⟨hc, rfl, Or.inr ⟨rfl, fb, rfl, rfl⟩⟩
        | error e =>
            rw [hfb] at h
            cases h

theorem imagePhase_ok {o : Oracle} {url : String} {c c1 : Cache} {n n1 : Nat}
    (h : imagePhase o url c n = .ok (c1, n1)) :
    (covImageB c url = true ∧ c1 = c ∧ n1 = n) ∨
    (covImageB c url = false ∧ n1 = n + 1 ∧
      ((∃ s, pyTruthy (fetch_content_with_retry (o url .image) 3 1).content = some s ∧
          c1 = { c with urlToImage := setKey c.urlToImage url s }) ∨
       (pyTruthy (fetch_content_with_retry (o url .image) 3 1).content = none ∧
        c1 = { c with failedImage := addFailed c.failedImage url }))) := by
  unfold imagePhase at h
  rw [guard_img] at h
  by_cases hc : covImageB c url
  · left
    rw [hc] at h
    simp only [Bool.not_true] at h
    rw [if_neg (by decide)] at h
    cases h
    exact ⟨hc, rfl, rfl⟩
  · right
    rw [Bool.not_eq_true] at hc
    rw [hc] at h
    simp only [Bool.not_false, if_pos rfl] at h
    cases ht : pyTruthy (fetch_content_with_retry (o url .image) 3 1).content with
    | some s =>
        rw [ht] at h
        cases h
        exact ⟨hc, rfl, Or.inl ⟨s, rfl, rfl⟩⟩
    | none =>
        rw [ht] at h
        cases h
        exact ⟨hc, rfl, Or.inr ⟨rfl, rfl⟩⟩

theorem le_setKey_text {c : Cache} {url : String} (v : String)
    (h : covTextB c url = false) :
    CacheLE c { c with urlToText := setKey c.urlToText url v } := by
  unfold covTextB at h
  rw [Bool.or_eq_false_iff] at h
  refine ⟨?_, fun u w hw => hw, fun u hu => hu, fun u hu => hu⟩
  intro u w hw
  simp only [alookup_setKey]
  split
  · rename_i he
    subst he
    rw [hw] at h
    simp at h
  · exact hw

theorem le_fallback_text {c : Cache} {url : String} (fb : String)
    (h : covTextB c url = false) :
    CacheLE c { c with failedSnippet := addFailed c.failedSnippet url,
                       urlToText := setKey c.urlToText url fb } := by
  unfold covTextB at h
  rw [Bool.or_eq_false_iff] at h
  refine ⟨?_, fun u w hw => hw, ?_, fun u hu => hu⟩
  · intro u w hw
    simp only [alookup_setKey]
    split
    · rename_i he
      subst he
      rw [hw] at h
      simp at h
    · exact hw
  · intro u hu
    exact (mem_addFailed_iff _ _ _).mpr (Or.inr hu)

theorem le_setKey_img {c : Cache} {url : String} (v : String)
    (h : covImageB c url = false) :
    CacheLE c { c with urlToImage := setKey c.urlToImage url v } := by
  unfold covImageB at h
  rw [Bool.or_eq_false_iff] at h
  refine ⟨fun u w hw => hw, ?_, fun u hu => hu, fun u hu => hu⟩
  intro u w hw
  simp only [alookup_setKey]
  split
  · rename_i he
    subst he
    rw [hw] at h
    simp at h
  · exact hw

theorem le_addFailed_img {c : Cache} (url : String) :
    CacheLE c { c with failedImage := addFailed c.failedImage url } :=
  ⟨fun u w hw => hw, fun u w hw => hw, fun u hu => hu,
   fun u hu => (mem_addFailed_iff _ _ _).mpr (Or.inr hu)⟩

theorem snippetPhase_le {df : List Article} {o : Oracle} {url : String}
    {c c1 : Cache} {n1 : Nat}
    (h : snippetPhase df o url c = .ok (c1, n1)) : CacheLE c c1 := by
  rcases snippetPhase_ok h with ⟨_, rfl, _⟩ | ⟨hc, _, ⟨s, _, rfl⟩ | ⟨_, fb, _, rfl⟩⟩
  · exact CacheLE.refl _
  · exact le_setKey_text s hc
  · exact le_fallback_text fb hc

theorem imagePhase_le {o : Oracle} {url : String} {c c1 : Cache} {n n1 : Nat}
    (h : imagePhase o url c n = .ok (c1, n1)) : CacheLE c c1 := by
  rcases imagePhase_ok h with ⟨_, rfl, _⟩ | ⟨hc, _, ⟨s, _, rfl⟩ | ⟨_, rfl⟩⟩
  · exact CacheLE.refl _
  · exact le_setKey_img s hc
  · exact le_addFailed_img url

theorem processUrl_ok {df : List Article} {o : Oracle} {url : String}
    {c c2 : Cache} {n : Nat}
    (h : processUrl df o url c = .ok (c2, n)) :
    ∃ c1 n1, snippetPhase df o url c = .ok (c1, n1) ∧
      imagePhase o url c1 n1 = .ok (c2, n) := by
  unfold processUrl at h
  cases hs : snippetPhase df o url c with
  | error e => rw [hs] at h; cases h
  | ok p =>
      obtain ⟨c1, n1⟩ := p
      rw [hs] at h
      exact ⟨c1, n1, rfl, h⟩

theorem processUrl_le {df : List Article} {o : Oracle} {url : String}
    {c c2 : Cache} {n : Nat}
    (h : processUrl df o url c = .ok (c2, n)) : CacheLE c c2 := by
  obtain ⟨c1, n1, hs, hi⟩ := processUrl_ok h
  exact (snippetPhase_le hs).trans (imagePhase_le hi)

theorem processUrls_le {df : List Article} {o : Oracle} :
    ∀ {us : List String} {c c2 : Cache} {n : Nat},
      processUrls df o us c = .ok (c2, n) → CacheLE c c2 := by
  intro us
  induction us with
  | nil =>
      intro c c2 n h
      unfold processUrls at h
      cases h
      exact CacheLE.refl _
  | cons u rest ih =>
      intro c c2 n h
      unfold processUrls at h
      cases hp : processUrl df o u c with
      | error e => rw [hp] at h; cases h
      | ok p =>
          obtain ⟨c1, n1⟩ := p
          rw [hp] at h
          have h2 : (match processUrls df o rest c1 with
              | Except.error e => (Except.error e : Except String (Cache × Nat))
              | Except.ok (c2, n2) => Except.ok (c2, n1 + n2)) = Except.ok (c2, n) := h
          cases hr : processUrls df o rest c1 with
          | error e => rw [hr] at h2; cases h2
          | ok q =>
              obtain ⟨cq, nq⟩ := q
              rw [hr] at h2
              cases h2
              exact (processUrl_le hp).trans (ih hr)

theorem processUrls_cons_ok {df : List Article} {o : Oracle} {u : String}
    {us : List String} {c c2 : Cache} {n : Nat}
    (h : processUrls df o (u :: us) c = .ok (c2, n)) :
    ∃ c1 n1 n2, processUrl df o u c = .ok (c1, n1) ∧
      processUrls df o us c1 = .ok (c2, n2) ∧ n = n1 + n2 := by
  unfold processUrls at h
  cases hp : processUrl df o u c with
  | error e => rw [hp] at h; cases h
  | ok p =>
      obtain ⟨c1, n1⟩ := p
      rw [hp] at h
      have h2 : (match processUrls df o us c1 with
          | Except.error e => (Except.error e : Except String (Cache × Nat))
          | Except.ok (c2, n2) => Except.ok (c2, n1 + n2)) = Except.ok (c2, n) := h
      cases hr : processUrls df o us c1 with
      | error e => rw [hr] at h2; cases h2
      | ok q =>
          obtain ⟨cq, nq⟩ := q
          rw [hr] at h2
          cases h2
          exact ⟨c1, n1, nq, rfl, hr, rfl⟩

theorem snippetPhase_cov {df : List Article} {o : Oracle} {url : String}
    {c c1 : Cache} {n1 : Nat}
    (h : snippetPhase df o url c = .ok (c1, n1)) : covTextB c1 url = true := by
  rcases snippetPhase_ok h with ⟨hc, rfl, _⟩ | ⟨_, _, ⟨s, _, rfl⟩ | ⟨_, fb, _, rfl⟩⟩
  · exact hc
  · unfold covTextB
    simp [alookup_setKey]
  · unfold covTextB
    simp [alookup_setKey]

theorem imagePhase_cov {o : Oracle} {url : String} {c c1 : Cache} {n n1 : Nat}
    (h : imagePhase o url c n = .ok (c1, n1)) : covImageB c1 url = true := by
  rcases imagePhase_ok h with ⟨hc, rfl, _⟩ | ⟨_, _, ⟨s, _, rfl⟩ | ⟨_, rfl⟩⟩
  · exact hc
  · unfold covImageB
    simp [alookup_setKey]
  · unfold covImageB
    simp [contains_iff_mem, mem_addFailed_iff]

theorem processUrl_cov {df : List Article} {o : Oracle} {url : String}
    {c c2 : Cache} {n : Nat}
    (h : processUrl df o url c = .ok (c2, n)) :
    covTextB c2 url = true ∧ covImageB c2 url = true := by
  obtain ⟨c1, n1, hs, hi⟩ := processUrl_ok h
  exact ⟨covTextB_mono (imagePhase_le hi) (snippetPhase_cov hs), imagePhase_cov hi⟩

theorem processUrls_cov {df : List Article} {o : Oracle} {url : String} :
    ∀ {us : List String} {c c2 : Cache} {n : Nat},
      url ∈ us → processUrls df o us c = .ok (c2, n) →
      covTextB c2 url = true ∧ covImageB c2 url = true := by
  intro us
  induction us with
  | nil => intro c c2 n hm; cases hm
  | cons u rest ih =>
      intro c c2 n hm h
      obtain ⟨c1, n1, n2, hp, hr, rfl⟩ := processUrls_cons_ok h
      rcases List.mem_cons.mp hm with rfl | hm2
      · obtain ⟨ht, hi⟩ := processUrl_cov hp
        exact ⟨covTextB_mono (processUrls_le hr) ht,
               covImageB_mono (processUrls_le hr) hi⟩
      · exact ih hm2 hr

theorem condA_eq (c : Cache) (a : Article) :
    condA c a = ((needsField a.text && !(covTextB c a.url)) ||
                 (needsField a.urlToImage && !(covImageB c a.url))) := by
  unfold condA covTextB covImageB
  cases alookup c.urlToText a.url <;> cases alookup c.urlToImage a.url <;>
    simp [Bool.and_assoc]

theorem mem_urlsToFetch {c : Cache} {a : Article} :
    ∀ {df : List Article}, a ∈ df → condA c a = true → a.url ∈ urlsToFetch c df := by
  intro df
  induction df with
  | nil => intro hm; cases hm
  | cons b rest ih =>
      intro hm hca
      unfold urlsToFetch
      rcases List.mem_cons.mp hm with rfl | hm2
      · rw [if_pos hca]
        exact List.mem_cons_self _ _
      · split
        · exact List.mem_cons_of_mem _ (ih hm2 hca)
        · exact ih hm2 hca

theorem urlsToFetch_eq_nil {c : Cache} :
    ∀ {df : List Article}, (∀ a ∈ df, condA c a = false) → urlsToFetch c df = [] := by
  intro df
  induction df with
  | nil => intro _; rfl
  | cons b rest ih =>
      intro hall
      unfold urlsToFetch
      rw [if_neg (by simp [hall b (List.mem_cons_self _ _)])]
      exact ih (fun a ha => hall a (List.mem_cons_of_mem _ ha))

theorem not_mem_urlsToFetch {c : Cache} {u : String} :
    ∀ {df : List Article}, (∀ a ∈ df, a.url = u → condA c a = false) →
      u ∉ urlsToFetch c df := by
  intro df
  induction df with
  | nil => intro _ hm; cases hm
  | cons b rest ih =>
      intro hall hm
      unfold urlsToFetch at hm
      split at hm
      · rename_i hcb
        rcases List.mem_cons.mp hm with rfl | hm2
        · rw [hall b (List.mem_cons_self _ _) rfl] at hcb
          cases hcb
        · exact ih (fun a ha hu => hall a (List.mem_cons_of_mem _ ha) hu) hm2
      · exact ih (fun a ha hu => hall a (List.mem_cons_of_mem _ ha) hu) hm

theorem enrich_ok_cases {o : Oracle} {df : List Article} {c : Cache}
    {r : EnrichResult}
    (h : enrich_articles_with_scraping o df c = .ok r) :
    (urlsToFetch c df = [] ∧ r = ⟨df.map (applyCache c), c, 0⟩) ∨
    (urlsToFetch c df ≠ [] ∧ ∃ n, processUrls df o (urlsToFetch c df) c = .ok (r.cache, n) ∧
      r.df = df.map (applyCache r.cache) ∧ r.fetchCalls = n) := by
  unfold enrich_articles_with_scraping at h
  by_cases he : urlsToFetch c df = []
  · left
    rw [he] at h
    simp only [List.isEmpty_nil, if_pos rfl] at h
    cases h
    exact ⟨he, rfl⟩
  · right
    rw [if_neg (by simpa using he)] at h
    refine ⟨he, ?_⟩
    cases hp : processUrls df o (urlsToFetch c df) c with
    | error e => rw [hp] at h; cases h
    | ok p =>
        obtain ⟨c2, n⟩ := p
        rw [hp] at h
        cases h
        exact ⟨n, rfl, rfl, rfl⟩

theorem enrich_le {o : Oracle} {df : List Article} {c : Cache} {r : EnrichResult}
    (h : enrich_articles_with_scraping o df c = .ok r) : CacheLE c r.cache := by
  rcases enrich_ok_cases h with ⟨_, rfl⟩ | ⟨_, n, hp, _, _⟩
  · exact CacheLE.refl c
  · exact processUrls_le hp

theorem enrich_df_eq {o : Oracle} {df : List Article} {c : Cache} {r : EnrichResult}
    (h : enrich_articles_with_scraping o df c = .ok r) :
    r.df = df.map (applyCache r.cache) := by
  rcases enrich_ok_cases h with ⟨_, rfl⟩ | ⟨_, n, _, hdf, _⟩
  · rfl
  · exact hdf

theorem enrich_cov {o : Oracle} {df : List Article} {c : Cache} {r : EnrichResult}
    (h : enrich_articles_with_scraping o df c = .ok r) :
    ∀ a ∈ df, (needsField a.text = true → covTextB r.cache a.url = true) ∧
      (needsField a.urlToImage = true → covImageB r.cache a.url = true) := by
  intro a ha
  by_cases hca : condA c a = true
  · have hm : a.url ∈ urlsToFetch c df := mem_urlsToFetch ha hca
    rcases enrich_ok_cases h with ⟨he, rfl⟩ | ⟨_, n, hp, _, _⟩
    · rw [he] at hm
      cases hm
    · have := processUrls_cov hm hp
      exact ⟨fun _ => this.1, fun _ => this.2⟩
  · rw [Bool.not_eq_true] at hca
    rw [condA_eq] at hca
    rw [Bool.or_eq_false_iff] at hca
    obtain ⟨h1, h2⟩ := hca
    constructor
    · intro hn
      rw [hn, Bool.true_and, Bool.not_eq_false'] at h1
      exact covTextB_mono (enrich_le h) h1
    · intro hn
      rw [hn, Bool.true_and, Bool.not_eq_false'] at h2
      exact covImageB_mono (enrich_le h) h2

theorem fetchFrom_step_retry (att : Nat → Attempt) (delay i rem : Nat)
    (h : retryable (att i) = true) :
    fetchFrom att delay i (rem + 1) =
      ⟨(fetchFrom att delay (i + 1) rem).content,
       (fetchFrom att delay (i + 1) rem).attempts + 1,
       delay * (i + 1) :: (fetchFrom att delay (i + 1) rem).sleeps⟩ := by
  cases hatt : att i with
  | success c => rw [hatt] at h; simp [retryable] at h
  | httpError c2 =>
      rw [hatt] at h
      unfold retryable at h
      rw [Bool.not_eq_true', Bool.or_eq_false_iff] at h
      simp [fetchFrom, hatt, h.1, h.2]
  | timeout => simp [fetchFrom, hatt]
  | netError => simp [fetchFrom, hatt]
  | otherError => simp [fetchFrom, hatt]

theorem fetchFrom_step_terminal (att : Nat → Attempt) (delay i rem code : Nat)
    (hatt : att i = .httpError code) (hcode : code = 403 ∨ code = 404) :
    fetchFrom att delay i (rem + 1) = ⟨none, 1, []⟩ := by
  have hif : (code == 403 || code == 404) = true := by
    rcases hcode with rfl | rfl <;> rfl
  simp [fetchFrom, hatt, hif]

theorem fetchFrom_timeout (att : Nat → Attempt) (delay : Nat)
    (h : ∀ i, att i = .timeout) :
    ∀ (rem i : Nat), fetchFrom att delay i rem =
      ⟨none, rem, (List.range rem).map (fun j => delay * (i + j + 1))⟩ := by
  intro rem
  induction rem with
  | zero => intro i; rfl
  | succ m ih =>
      intro i
      rw [fetchFrom_step_retry att delay i m (by rw [h i]; rfl)]
      rw [ih (i + 1)]
      rw [FetchResult.mk.injEq]
      refine ⟨rfl, rfl, ?_⟩
      rw [List.range_succ_eq_map, List.map_cons, List.map_map]
      simp only [Nat.add_zero]
      congr 1
      apply List.map_congr_left
      intro a _
      simp only [Function.comp_apply]
      congr 1
      omega

theorem fetchFrom_terminal (att : Nat → Attempt) (delay code : Nat)
    (hcode : code = 403 ∨ code = 404) :
    ∀ (k i rem : Nat), k < rem →
      (∀ j, j < k → retryable (att (i + j)) = true) →
      att (i + k) = .httpError code →
      fetchFrom att delay i rem =
        ⟨none, k + 1, (List.range k).map (fun j => delay * (i + j + 1))⟩ := by
  intro k
  induction k with
  | zero =>
      intro i rem hlt _ hat
      obtain ⟨m, rfl⟩ : ∃ m, rem = m + 1 := ⟨rem - 1, by omega⟩
      rw [Nat.add_zero] at hat
      rw [fetchFrom_step_terminal att delay i m code hat hcode]
      simp
  | succ m ih =>
      intro i rem hlt hprev hat
      obtain ⟨rm, rfl⟩ : ∃ rm, rem = rm + 1 := ⟨rem - 1, by omega⟩
      have h0 : retryable (att i) = true := by simpa using hprev 0 (by omega)
      rw [fetchFrom_step_retry att delay i rm h0]
      rw [ih (i + 1) rm (by omega)
        (fun j hj => by
          have hj2 := hprev (j + 1) (by omega)
          rwa [show i + (j + 1) = i + 1 + j by omega] at hj2)
        (by rwa [show i + (m + 1) = i + 1 + m by omega] at hat)]
      rw [FetchResult.mk.injEq]
      refine ⟨rfl, rfl, ?_⟩
      rw [List.range_succ_eq_map, List.map_cons, List.map_map]
      simp only [Nat.add_zero]
      congr 1
      apply List.map_congr_left
      intro a _
      simp only [Function.comp_apply]
      congr 1
      omega

/-! ### Claims -/

/-- C4: a fetch attempt answered with HTTP 403 or 404 makes
`fetch_content_with_retry` return `None` right away: the attempt count stops
at that attempt, and no backoff sleep is issued after it (the `k` sleeps are
those of the earlier retryable failures). -/
theorem spec_C4_terminal_no_retry (att : Nat → Attempt) (retries delay k code : Nat)
    (hk : k < retries)
    (hprev : ∀ j, j < k → retryable (att j) = true)
    (hat : att k = .httpError code)
    (hcode : code = 403 ∨ code = 404) :
    fetch_content_with_retry att retries delay =
      ⟨none, k + 1, (List.range k).map (fun j => delay * (j + 1))⟩ := by
  unfold fetch_content_with_retry
  rw [fetchFrom_terminal att delay code hcode k 0 retries hk
    (fun j hj => by simpa using hprev j hj) (by simpa using hat)]
  rw [FetchResult.mk.injEq]
  refine ⟨rfl, rfl, ?_⟩
  apply List.map_congr_left
  intro a _
  congr 1
  omega

/-- Witness for C4: a first-attempt 404 with three retries allowed gives one
attempt, no sleeps, and a `None` result. -/
theorem spec_C4_witness :
    fetch_content_with_retry (fun _ => Attempt.httpError 404) 3 1 = ⟨none, 1, []⟩ := by
  have h := spec_C4_terminal_no_retry (fun _ => Attempt.httpError 404) 3 1 0 404
    (by omega) (fun j hj => absurd hj (by omega)) rfl (Or.inr rfl)
  simpa using h

/-- C9: the session cache only grows during `enrich_articles_with_scraping`:
every text mapping, image mapping and failed-url membership present before
the call is still present, with the same value, afterwards. -/
theorem spec_C9_cache_monotone (o : Oracle) (df : List Article) (c : Cache)
    (r : EnrichResult)
    (h : enrich_articles_with_scraping o df c = .ok r) :
    (∀ u v, alookup c.urlToText u = some v → alookup r.cache.urlToText u = some v) ∧
    (∀ u v, alookup c.urlToImage u = some v → alookup r.cache.urlToImage u = some v) ∧
    (∀ u, u ∈ c.failedSnippet → u ∈ r.cache.failedSnippet) ∧
    (∀ u, u ∈ c.failedImage → u ∈ r.cache.failedImage) := by
  have hle := enrich_le h
  exact ⟨hle.text, hle.img, hle.fsnip, hle.fimg⟩

/-- Witness cache for C9. -/
def cacheW9 : Cache := ⟨[("u", "t")], [("u", "i")], ["v"], ["w"]⟩

/-- Witness article for C9: a fresh article is enriched on a warm cache and
the prior entries survive. -/
def dfW9 : List Article := [⟨some "A", "u9", none, none⟩]

/-- Witness oracle for C9. -/
def oW9 : Oracle := fun _ k _ =>
  match k with
  | .snippet => .success (some "S")
  | .image => .success (some "I")

/-- Witness for C9, at a concrete warm cache and a run that adds entries. -/
theorem spec_C9_witness :
    (∀ u v, alookup cacheW9.urlToText u = some v →
      alookup (EnrichResult.mk
        [⟨some "A", "u9", some "S", some "I"⟩]
        ⟨[("u", "t"), ("u9", "S")], [("u", "i"), ("u9", "I")], ["v"], ["w"]⟩ 2).cache.urlToText u = some v) ∧
    (∀ u v, alookup cacheW9.urlToImage u = some v →
      alookup (EnrichResult.mk
        [⟨some "A", "u9", some "S", some "I"⟩]
        ⟨[("u", "t"), ("u9", "S")], [("u", "i"), ("u9", "I")], ["v"], ["w"]⟩ 2).cache.urlToImage u = some v) ∧
    (∀ u, u ∈ cacheW9.failedSnippet →
      u ∈ (EnrichResult.mk
        [⟨some "A", "u9", some "S", some "I"⟩]
        ⟨[("u", "t"), ("u9", "S")], [("u", "i"), ("u9", "I")], ["v"], ["w"]⟩ 2).cache.failedSnippet) ∧
    (∀ u, u ∈ cacheW9.failedImage →
      u ∈ (EnrichResult.mk
        [⟨some "A", "u9", some "S", some "I"⟩]
        ⟨[("u", "t"), ("u9", "S")], [("u", "i"), ("u9", "I")], ["v"], ["w"]⟩ 2).cache.failedImage) :=
  spec_C9_cache_monotone oW9 dfW9 cacheW9 _ (by decide)

/-- C3: re-running enrichment on the same article set with the cache a
previous run produced does no fetch call at all and returns the same
dataframe and cache. -/
theorem spec_C3_idempotent (o o2 : Oracle) (df : List Article) (c : Cache)
    (r1 : EnrichResult)
    (h : enrich_articles_with_scraping o df c = .ok r1) :
    enrich_articles_with_scraping o2 df r1.cache = .ok ⟨r1.df, r1.cache, 0⟩ := by
  have hnil : urlsToFetch r1.cache df = [] := by
    apply urlsToFetch_eq_nil
    intro a ha
    have hcov := enrich_cov h a ha
    rw [condA_eq, Bool.or_eq_false_iff]
    constructor
    · cases hn : needsField a.text
      · simp
      · rw [hcov.1 hn]
        simp
    · cases hn : needsField a.urlToImage
      · simp
      · rw [hcov.2 hn]
        simp
  unfold enrich_articles_with_scraping
  rw [hnil]
  simp only [List.isEmpty_nil, if_true]
  rw [← enrich_df_eq h]

/-- Witness oracle for C3. -/
def oW3 : Oracle := fun _ k _ =>
  match k with
  | .snippet => .success (some "S")
  | .image => .success (some "I")

/-- Witness article set for C3. -/
def dfW3 : List Article := [⟨some "A", "u3", none, none⟩]

/-- Witness first-run result for C3. -/
def r1W3 : EnrichResult :=
  ⟨[⟨some "A", "u3", some "S", some "I"⟩], ⟨[("u3", "S")], [("u3", "I")], [], []⟩, 2⟩

/-- Witness for C3: a concrete second run on the warm cache. -/
theorem spec_C3_witness :
    enrich_articles_with_scraping oW3 dfW3 r1W3.cache = .ok ⟨r1W3.df, r1W3.cache, 0⟩ :=
  spec_C3_idempotent oW3 oW3 dfW3 emptyCache r1W3 (by decide)

/-- Tracking state of a url whose snippet fetch always comes back falsy:
either it has already been marked failed and carries the fallback text, or it
is still completely fresh for the snippet kind. -/
def snippetFailState (df : List Article) (url : String) (c : Cache) : Prop :=
  (url ∈ c.failedSnippet ∧ ∃ fb, snippetFallback df url = .ok fb ∧
    alookup c.urlToText url = some fb) ∨
  (url ∉ c.failedSnippet ∧ alookup c.urlToText url = none)

theorem failState_persist {df : List Article} {url : String} {c c2 : Cache}
    (hle : CacheLE c c2)
    (h : url ∈ c.failedSnippet ∧ ∃ fb, snippetFallback df url = .ok fb ∧
      alookup c.urlToText url = some fb) :
    url ∈ c2.failedSnippet ∧ ∃ fb, snippetFallback df url = .ok fb ∧
      alookup c2.urlToText url = some fb := by
  obtain ⟨hm, fb, hfb, hlk⟩ := h
  exact ⟨hle.fsnip url hm, fb, hfb, hle.text url fb hlk⟩

theorem imagePhase_text_eq {o : Oracle} {url : String} {c c1 : Cache} {n n1 : Nat}
    (h : imagePhase o url c n = .ok (c1, n1)) :
    c1.urlToText = c.urlToText ∧ c1.failedSnippet = c.failedSnippet := by
  rcases imagePhase_ok h with ⟨_, rfl, _⟩ | ⟨_, _, ⟨s, _, rfl⟩ | ⟨_, rfl⟩⟩ <;>
    exact ⟨rfl, rfl⟩

theorem snippetPhase_failState {df : List Article} {o : Oracle} {url u : String}
    {c c1 : Cache} {n1 : Nat}
    (hfetch : pyTruthy (fetch_content_with_retry (o url .snippet) 3 1).content = none)
    (h : snippetPhase df o u c = .ok (c1, n1))
    (hst : snippetFailState df url c) : snippetFailState df url c1 := by
  rcases snippetPhase_ok h with ⟨_, rfl, _⟩ | ⟨hcov, _, ⟨s, hts, rfl⟩ | ⟨_, fb, hfb, rfl⟩⟩
  · exact hst
  · by_cases hu : u = url
    · subst hu
      rw [hfetch] at hts
      cases hts
    · rcases hst with hl | ⟨hnm, hnl⟩
      · exact Or.inl (failState_persist (le_setKey_text s hcov) hl)
      · refine Or.inr ⟨hnm, ?_⟩
        rw [alookup_setKey]
        rw [if_neg hu]
        exact hnl
  · by_cases hu : u = url
    · subst hu
      refine Or.inl ⟨(mem_addFailed_iff _ _ _).mpr (Or.inl rfl), fb, hfb, ?_⟩
      rw [alookup_setKey]
      rw [if_pos rfl]
    · rcases hst with hl | ⟨hnm, hnl⟩
      · exact Or.inl (failState_persist (le_fallback_text fb hcov) hl)
      · refine Or.inr ⟨?_, ?_⟩
        · intro hmem
          rcases (mem_addFailed_iff _ _ _).mp hmem with he | hm2
          · exact hu he.symm
          · exact hnm hm2
        · rw [alookup_setKey]
          rw [if_neg hu]
          exact hnl

theorem processUrl_failState {df : List Article} {o : Oracle} {url u : String}
    {c c2 : Cache} {n : Nat}
    (hfetch : pyTruthy (fetch_content_with_retry (o url .snippet) 3 1).content = none)
    (h : processUrl df o u c = .ok (c2, n))
    (hst : snippetFailState df url c) : snippetFailState df url c2 := by
  obtain ⟨c1, n1, hs, hi⟩ := processUrl_ok h
  have hst1 := snippetPhase_failState hfetch hs hst
  obtain ⟨ht, hf⟩ := imagePhase_text_eq hi
  unfold snippetFailState at hst1 ⊢
  rw [ht, hf]
  exact hst1

theorem processUrl_self_fail {df : List Article} {o : Oracle} {url : String}
    {c c2 : Cache} {n : Nat}
    (hfetch : pyTruthy (fetch_content_with_retry (o url .snippet) 3 1).content = none)
    (h : processUrl df o url c = .ok (c2, n))
    (hst : snippetFailState df url c) :
    url ∈ c2.failedSnippet ∧ ∃ fb, snippetFallback df url = .ok fb ∧
      alookup c2.urlToText url = some fb := by
  obtain ⟨c1, n1, hs, hi⟩ := processUrl_ok h
  have hgoal1 : url ∈ c1.failedSnippet ∧ ∃ fb, snippetFallback df url = .ok fb ∧
      alookup c1.urlToText url = some fb := by
    rcases snippetPhase_ok hs with ⟨hcov, rfl, _⟩ | ⟨hcov, _, ⟨s, hts, rfl⟩ | ⟨_, fb, hfb, rfl⟩⟩
    · rcases hst with hl | ⟨hnm, hnl⟩
      · exact hl
      · unfold covTextB at hcov
        rw [hnl] at hcov
        simp [contains_iff_mem, hnm] at hcov
    · rw [hfetch] at hts
      cases hts
    · refine ⟨(mem_addFailed_iff _ _ _).mpr (Or.inl rfl), fb, hfb, ?_⟩
      rw [alookup_setKey]
      rw [if_pos rfl]
  exact failState_persist (imagePhase_le hi) hgoal1

theorem processUrls_failState {df : List Article} {o : Oracle} {url : String}
    (hfetch : pyTruthy (fetch_content_with_retry (o url .snippet) 3 1).content = none) :
    ∀ {us : List String} {c c2 : Cache} {n : Nat},
      processUrls df o us c = .ok (c2, n) → snippetFailState df url c →
      snippetFailState df url c2 ∧
      (url ∈ us → url ∈ c2.failedSnippet ∧ ∃ fb, snippetFallback df url = .ok fb ∧
        alookup c2.urlToText url = some fb) := by
  intro us
  induction us with
  | nil =>
      intro c c2 n h hst
      unfold processUrls at h
      cases h
      exact ⟨hst, fun hm => absurd hm (List.not_mem_nil url)⟩
  | cons u rest ih =>
      intro c c2 n h hst
      obtain ⟨c1, n1, n2, hp, hr, rfl⟩ := processUrls_cons_ok h
      have hst1 := processUrl_failState hfetch hp hst
      obtain ⟨hst2, hrest⟩ := ih hr hst1
      refine ⟨hst2, ?_⟩
      intro hm
      rcases List.mem_cons.mp hm with rfl | hm2
      · exact failState_persist (processUrls_le hr) (processUrl_self_fail hfetch hp hst)
      · exact hrest hm2

/-- C5: a url whose snippet fetch times out on all three attempts gets a
`None` fetch result after exactly 3 attempts with linear backoff sleeps, is
recorded in `failed['snippet']`, and is absent from the worklist of any later
enrichment pass over the same frame with the resulting cache. -/
theorem spec_C5_timeout_permanent_failure (o : Oracle) (df : List Article)
    (c : Cache) (r : EnrichResult) (a : Article) (ha : a ∈ df)
    (htime : ∀ i, o a.url .snippet i = .timeout)
    (hneed : needsField a.text = true)
    (hT : alookup c.urlToText a.url = none)
    (hF : a.url ∉ c.failedSnippet)
    (h : enrich_articles_with_scraping o df c = .ok r) :
    fetch_content_with_retry (o a.url .snippet) 3 1 = ⟨none, 3, [1, 2, 3]⟩ ∧
    a.url ∈ r.cache.failedSnippet ∧
    a.url ∉ urlsToFetch r.cache df := by
  have hfr : fetch_content_with_retry (o a.url .snippet) 3 1 = ⟨none, 3, [1, 2, 3]⟩ := by
    unfold fetch_content_with_retry
    rw [fetchFrom_timeout _ _ htime 3 0]
    decide
  have hfetch : pyTruthy (fetch_content_with_retry (o a.url .snippet) 3 1).content
      = none := by
    rw [hfr]
    rfl
  have hcovF : covTextB c a.url = false := by
    unfold covTextB
    rw [hT]
    simp [contains_iff_mem, hF]
  have hcond : condA c a = true := by
    rw [condA_eq, hneed, hcovF]
    simp
  have hm : a.url ∈ urlsToFetch c df := mem_urlsToFetch ha hcond
  rcases enrich_ok_cases h with ⟨he, rfl⟩ | ⟨_, n, hp, _, _⟩
  · rw [he] at hm
    cases hm
  · obtain ⟨_, hmem⟩ := processUrls_failState hfetch hp (Or.inr ⟨hF, hT⟩)
    obtain ⟨hfailed, fb, hfb, hlk⟩ := hmem hm
    refine ⟨hfr, hfailed, ?_⟩
    apply not_mem_urlsToFetch
    intro b hb hub
    rw [condA_eq, hub]
    have h1 : covTextB r.cache a.url = true := by
      unfold covTextB
      rw [Bool.or_eq_true_iff]
      exact Or.inr (contains_iff_mem.mpr hfailed)
    have h2 : covImageB r.cache a.url = true := (processUrls_cov hm hp).2
    rw [h1, h2]
    simp

/-- Witness oracle for C5: snippets always time out, images succeed. -/
def oW5 : Oracle := fun _ k _ =>
  match k with
  | .snippet => .timeout
  | .image => .success (some "I5")

/-- Witness article set for C5. -/
def dfW5 : List Article := [⟨some "Headline five", "u5", none, none⟩]

/-- Witness result for C5. -/
def rW5 : EnrichResult :=
  ⟨[⟨some "Headline five", "u5", some "Headline five...", some "I5"⟩],
   ⟨[("u5", "Headline five...")], [("u5", "I5")], ["u5"], []⟩, 2⟩

/-- Witness for C5 at a concrete all-timeout snippet oracle. -/
theorem spec_C5_witness :
    fetch_content_with_retry (oW5 "u5" Kind.snippet) 3 1 = ⟨none, 3, [1, 2, 3]⟩ ∧
    "u5" ∈ rW5.cache.failedSnippet ∧
    "u5" ∉ urlsToFetch rW5.cache dfW5 :=
  spec_C5_timeout_permanent_failure oW5 dfW5 emptyCache rW5
    ⟨some "Headline five", "u5", none, none⟩ (by decide) (fun i => rfl)
    (by decide) rfl (by decide) (by decide)

/-- Concrete frame for the C7 counterexample: one article with a null
headline whose url will fail to fetch. -/
def dfC7 : List Article := [⟨none, "u7", none, none⟩]

/-- Counterexample to C7 as stated: with an absent headline the failing-fetch
fallback does not produce "No snippet available" (nor any value): slicing the
`NaN` headline raises `TypeError`, so the whole enrichment call errors. -/
theorem spec_C7_cex :
    enrich_articles_with_scraping (fun _ _ _ => .timeout) dfC7 emptyCache =
      .error "TypeError" := by decide

/-- C7 (amended): when a url's snippet fetch comes back falsy, the text
stored for it — and mapped onto every article row sharing the url — is the
first 250 characters of the headline of the FIRST frame row with that url,
plus "..." (when that headline exists; a null headline raises instead). -/
theorem spec_C7_fallback_text (o : Oracle) (df : List Article) (c : Cache)
    (r : EnrichResult) (a b0 : Article) (hl : String) (ha : a ∈ df)
    (hfetch : pyTruthy (fetch_content_with_retry (o a.url .snippet) 3 1).content = none)
    (hfind : df.find? (fun b => b.url == a.url) = some b0)
    (hhead : b0.headline = some hl)
    (hneed : needsField a.text = true)
    (hT : alookup c.urlToText a.url = none)
    (hF : a.url ∉ c.failedSnippet)
    (h : enrich_articles_with_scraping o df c = .ok r) :
    alookup r.cache.urlToText a.url = some (pyTake hl 250 ++ "...") ∧
    ∀ b ∈ df, b.url = a.url →
      applyCache r.cache b ∈ r.df ∧
      (applyCache r.cache b).text = some (pyTake hl 250 ++ "...") := by
  have hfb : snippetFallback df a.url = .ok (pyTake hl 250 ++ "...") := by
    unfold snippetFallback
    rw [hfind]
    simp [hhead]
  have hcovF : covTextB c a.url = false := by
    unfold covTextB
    rw [hT]
    simp [contains_iff_mem, hF]
  have hcond : condA c a = true := by
    rw [condA_eq, hneed, hcovF]
    simp
  have hm : a.url ∈ urlsToFetch c df := mem_urlsToFetch ha hcond
  rcases enrich_ok_cases h with ⟨he, rfl⟩ | ⟨_, n, hp, hdf, _⟩
  · rw [he] at hm
    cases hm
  · obtain ⟨_, hmem⟩ := processUrls_failState hfetch hp (Or.inr ⟨hF, hT⟩)
    obtain ⟨hfailed, fb, hfb2, hlk⟩ := hmem hm
    rw [hfb] at hfb2
    injection hfb2 with hfb3
    subst hfb3
    refine ⟨hlk, ?_⟩
    intro b hb hub
    constructor
    · rw [hdf]
      exact List.mem_map_of_mem _ hb
    · simp [applyCache, fillna, hub, hlk]

/-- Witness oracle for C7: snippet fetches time out, image fetches succeed. -/
def oW7 : Oracle := fun _ k _ =>
  match k with
  | .snippet => .timeout
  | .image => .success (some "I7")

/-- Witness article set for C7: two rows share the failing url. -/
def dfW7 : List Article :=
  [⟨some "Seven", "u7", none, none⟩, ⟨some "Other", "u7", none, none⟩]

/-- Witness cache result for C7. -/
def cW7 : Cache := ⟨[("u7", "Seven...")], [("u7", "I7")], ["u7"], []⟩

/-- Witness result for C7. -/
def rW7 : EnrichResult :=
  ⟨[⟨some "Seven", "u7", some "Seven...", some "I7"⟩,
    ⟨some "Other", "u7", some "Seven...", some "I7"⟩], cW7, 2⟩

/-- Witness for C7: both rows sharing the url receive the first row's
headline-derived fallback. -/
theorem spec_C7_witness :
    alookup rW7.cache.urlToText "u7" = some (pyTake "Seven" 250 ++ "...") ∧
    ∀ b ∈ dfW7, b.url = "u7" →
      applyCache rW7.cache b ∈ rW7.df ∧
      (applyCache rW7.cache b).text = some (pyTake "Seven" 250 ++ "...") :=
  spec_C7_fallback_text oW7 dfW7 emptyCache rW7
    ⟨some "Seven", "u7", none, none⟩ ⟨some "Seven", "u7", none, none⟩ "Seven"
    (by decide) (by decide) (by decide) rfl rfl rfl (by decide) (by decide)

theorem pyTruthy_ne {x : Option String} {s : String}
    (h : pyTruthy x = some s) : s ≠ "" := by
  cases x with
  | none => cases h
  | some t =>
      by_cases ht : t = ""
      · subst ht
        simp [pyTruthy] at h
      · rw [show pyTruthy (some t) = some t from by simp [pyTruthy, ht]] at h
        injection h with h2
        subst h2
        exact ht

theorem append_dots_ne (s : String) : s ++ "..." ≠ "" := by
  intro hcon
  have h2 := congrArg String.data hcon
  rw [String.data_append] at h2
  have h3 := (List.append_eq_nil.mp h2).2
  simp at h3

theorem snippetFallback_ne {df : List Article} {url fb : String}
    (h : snippetFallback df url = .ok fb) : fb ≠ "" := by
  unfold snippetFallback at h
  cases hf : df.find? (fun a => a.url == url) with
  | none =>
      rw [hf] at h
      injection h with h2
      subst h2
      decide
  | some a =>
      rw [hf] at h
      have h2 : (match a.headline with
          | some hl => (Except.ok (pyTake hl 250 ++ "...") : Except String String)
          | none => Except.error "TypeError") = Except.ok fb := h
      cases hh : a.headline with
      | none => rw [hh] at h2; cases h2
      | some hl =>
          rw [hh] at h2
          injection h2 with h3
          subst h3
          exact append_dots_ne _

theorem snippetPhase_wf {df : List Article} {o : Oracle} {url : String}
    {c c1 : Cache} {n1 : Nat}
    (h : snippetPhase df o url c = .ok (c1, n1))
    (hwf : wfTextCache c) : wfTextCache c1 := by
  obtain ⟨hwf1, hwf2⟩ := hwf
  rcases snippetPhase_ok h with ⟨_, rfl, _⟩ | ⟨hcov, _, ⟨s, hts, rfl⟩ | ⟨_, fb, hfb, rfl⟩⟩
  · exact ⟨hwf1, hwf2⟩
  · constructor
    · intro u hu
      rw [alookup_setKey]
      split
      · rfl
      · exact hwf1 u hu
    · intro u v hv
      rw [alookup_setKey] at hv
      split at hv
      · injection hv with hv2
        subst hv2
        exact pyTruthy_ne hts
      · exact hwf2 u v hv
  · constructor
    · intro u hu
      rw [alookup_setKey]
      split
      · rfl
      · rename_i hne
        rcases (mem_addFailed_iff _ _ _).mp hu with he | hm
        · exact absurd he.symm hne
        · exact hwf1 u hm
    · intro u v hv
      rw [alookup_setKey] at hv
      split at hv
      · injection hv with hv2
        subst hv2
        exact snippetFallback_ne hfb
      · exact hwf2 u v hv

theorem imagePhase_wf {o : Oracle} {url : String} {c c1 : Cache} {n n1 : Nat}
    (h : imagePhase o url c n = .ok (c1, n1))
    (hwf : wfTextCache c) : wfTextCache c1 := by
  obtain ⟨ht, hf⟩ := imagePhase_text_eq h
  unfold wfTextCache
  rw [ht, hf]
  exact hwf

theorem processUrls_wf {df : List Article} {o : Oracle} :
    ∀ {us : List String} {c c2 : Cache} {n : Nat},
      processUrls df o us c = .ok (c2, n) → wfTextCache c → wfTextCache c2 := by
  intro us
  induction us with
  | nil =>
      intro c c2 n h hwf
      unfold processUrls at h
      cases h
      exact hwf
  | cons u rest ih =>
      intro c c2 n h hwf
      obtain ⟨c1, n1, n2, hp, hr, rfl⟩ := processUrls_cons_ok h
      obtain ⟨cm, nm, hs, hi⟩ := processUrl_ok hp
      exact ih hr (imagePhase_wf hi (snippetPhase_wf hs hwf))

theorem enrich_wf {o : Oracle} {df : List Article} {c : Cache} {r : EnrichResult}
    (h : enrich_articles_with_scraping o df c = .ok r)
    (hwf : wfTextCache c) : wfTextCache r.cache := by
  rcases enrich_ok_cases h with ⟨_, rfl⟩ | ⟨_, n, hp, _, _⟩
  · exact hwf
  · exact processUrls_wf hp hwf

/-- Counterexample to C1 as stated: a frame whose only article has a null
image and whose fetches all time out comes back from a completed enrichment
run with `urlToImage` still null — no image fallback exists in the code. -/
theorem spec_C1_cex :
    Except.map (fun r => r.df.map Article.urlToImage)
      (enrich_articles_with_scraping (fun _ _ _ => .timeout)
        [⟨some "A headline", "u1", none, none⟩] emptyCache) = .ok [none] := by decide

/-- C1 (amended): after a successful enrichment run from a well-formed cache
whose stored snippets are non-empty, every article's text is non-null and
non-empty; the image half of the claim fails (see the counterexample). -/
theorem spec_C1_text_nonempty (o : Oracle) (df : List Article) (c : Cache)
    (r : EnrichResult) (hwf : wfTextCache c)
    (h : enrich_articles_with_scraping o df c = .ok r) :
    ∀ a ∈ r.df, ∃ s, a.text = some s ∧ s ≠ "" := by
  have hwf2 : wfTextCache r.cache := enrich_wf h hwf
  intro a2 ha2
  rw [enrich_df_eq h] at ha2
  obtain ⟨b, hb, rfl⟩ := List.mem_map.mp ha2
  cases hlk : alookup r.cache.urlToText b.url with
  | some v =>
      exact ⟨v, by simp [applyCache, fillna, hlk], hwf2.2 _ _ hlk⟩
  | none =>
      cases hn : needsField b.text with
      | true =>
          have hcov := (enrich_cov h b hb).1 hn
          unfold covTextB at hcov
          rw [hlk] at hcov
          simp only [Option.isSome_none, Bool.false_or] at hcov
          have hsome := hwf2.1 _ (contains_iff_mem.mp hcov)
          rw [hlk] at hsome
          cases hsome
      | false =>
          cases htx : b.text with
          | none =>
              rw [htx] at hn
              cases hn
          | some s =>
              refine ⟨s, by simp [applyCache, fillna, hlk, htx], ?_⟩
              intro hs
              subst hs
              rw [htx] at hn
              exact absurd hn (by decide)

/-- The empty session cache is well formed. -/
theorem wfTextCache_empty : wfTextCache emptyCache :=
  ⟨fun u hu => absurd hu (List.not_mem_nil u),
   fun u v hv => by cases hv⟩

/-- Witness for C1 (amended): a run where the snippet fetch fails and the
fallback is used still yields non-empty text for the resulting article. -/
theorem spec_C1_witness :
    ∃ s, (Article.mk (some "Headline five") "u5" (some "Headline five...")
      (some "I5")).text = some s ∧ s ≠ "" :=
  spec_C1_text_nonempty oW5 dfW5 emptyCache
    ⟨[⟨some "Headline five", "u5", some "Headline five...", some "I5"⟩],
     ⟨[("u5", "Headline five...")], [("u5", "I5")], ["u5"], []⟩, 2⟩
    wfTextCache_empty (by decide)
    ⟨some "Headline five", "u5", some "Headline five...", some "I5"⟩ (by decide)

/-! ### Scorer lemmas -/

theorem rawScore_nonneg (combined : String) (kws : List String) :
    0 ≤ rawScore combined kws := by
  unfold rawScore
  suffices h : ∀ (s0 : ℚ), 0 ≤ s0 →
      0 ≤ kws.foldl (fun s kw => if keywordHit combined kw then s + 2/10 else s) s0 from
    h 0 le_rfl
  induction kws with
  | nil => intro s0 h0; exact h0
  | cons kw rest ih =>
      intro s0 h0
      rw [List.foldl_cons]
      apply ih
      split
      · linarith
      · exact h0

theorem scoreRow_mem_bounds (headline text : Option String) (jF jN : ℚ)
    (hF1 : -(1/10) ≤ jF) (hF2 : jF ≤ 1/10)
    (hN1 : -(1/10) ≤ jN) (hN2 : jN ≤ 1/10) :
    ∀ p ∈ scoreRow headline text jF jN, 0 ≤ p.2 ∧ p.2 ≤ 1 := by
  intro p hp
  unfold scoreRow at hp
  simp only [List.mem_map, List.mem_append] at hp
  obtain ⟨q, hq, rfl⟩ := hp
  refine ⟨le_min ?_ (by norm_num), min_le_right _ _⟩
  rcases hq with hbase | htail
  · obtain ⟨q2, hq2, rfl⟩ := hbase
    dsimp only
    split
    · exact le_min (le_of_lt (by assumption)) (by norm_num)
    · exact le_rfl
  · split at htail <;>
      simp only [List.mem_cons, List.mem_singleton, List.not_mem_nil, or_false] at htail
    · rcases htail with rfl | rfl <;> norm_num
    · rcases htail with rfl | rfl
      · dsimp only
        linarith
      · dsimp only
        linarith

/-- C8: every label score `assign_labels_and_scores` writes lies in [0, 1],
for any frame and any jitter draws within the `random.uniform(-0.1, 0.1)`
range. -/
theorem spec_C8_scores_in_unit_interval (df : List Row) (jF jN : Nat → ℚ)
    (hF : ∀ i, -(1/10) ≤ jF i ∧ jF i ≤ 1/10)
    (hN : ∀ i, -(1/10) ≤ jN i ∧ jN i ≤ 1/10) :
    ∀ r ∈ assign_labels_and_scores df jF jN, ∀ p ∈ r.scores, 0 ≤ p.2 ∧ p.2 ≤ 1 := by
  unfold assign_labels_and_scores
  suffices h : ∀ (df2 : List Row) (i0 : Nat), ∀ r ∈ assignFrom jF jN i0 df2,
      ∀ p ∈ r.scores, 0 ≤ p.2 ∧ p.2 ≤ 1 from h df 0
  intro df2
  induction df2 with
  | nil =>
      intro i0 r hr
      cases hr
  | cons b rest ih =>
      intro i0 r hr
      unfold assignFrom at hr
      rcases List.mem_cons.mp hr with rfl | hr2
      · intro p hp
        exact scoreRow_mem_bounds _ _ _ _ (hF i0).1 (hF i0).2 (hN i0).1 (hN i0).2 p hp
      · exact ih (i0 + 1) r hr2

theorem scoreRow_keys (headline text : Option String) (jF jN : ℚ) :
    (scoreRow headline text jF jN).map Prod.fst = LABELS := by
  unfold scoreRow LABELS labelRaw
  rw [List.map_map, List.map_append]
  congr 1
  split <;> rfl

/-- C10: `assign_labels_and_scores` writes only the label columns: headline,
url, text, urlToImage, date_published and source_name survive unchanged, and
the columns written are exactly the keyword labels plus Factual/Neutral. -/
theorem spec_C10_frame (df : List Row) (jF jN : Nat → ℚ) :
    (assign_labels_and_scores df jF jN).map Row.headline = df.map Row.headline ∧
    (assign_labels_and_scores df jF jN).map Row.url = df.map Row.url ∧
    (assign_labels_and_scores df jF jN).map Row.text = df.map Row.text ∧
    (assign_labels_and_scores df jF jN).map Row.urlToImage = df.map Row.urlToImage ∧
    (assign_labels_and_scores df jF jN).map Row.date_published =
      df.map Row.date_published ∧
    (assign_labels_and_scores df jF jN).map Row.source_name = df.map Row.source_name ∧
    ∀ r ∈ assign_labels_and_scores df jF jN, r.scores.map Prod.fst = LABELS := by
  unfold assign_labels_and_scores
  suffices h : ∀ (df2 : List Row) (i0 : Nat),
      (assignFrom jF jN i0 df2).map Row.headline = df2.map Row.headline ∧
      (assignFrom jF jN i0 df2).map Row.url = df2.map Row.url ∧
      (assignFrom jF jN i0 df2).map Row.text = df2.map Row.text ∧
      (assignFrom jF jN i0 df2).map Row.urlToImage = df2.map Row.urlToImage ∧
      (assignFrom jF jN i0 df2).map Row.date_published = df2.map Row.date_published ∧
      (assignFrom jF jN i0 df2).map Row.source_name = df2.map Row.source_name ∧
      ∀ r ∈ assignFrom jF jN i0 df2, r.scores.map Prod.fst = LABELS from h df 0
  intro df2
  induction df2 with
  | nil =>
      intro i0
      exact ⟨rfl, rfl, rfl, rfl, rfl, rfl, fun r hr => absurd hr (List.not_mem_nil r)⟩
  | cons b rest ih =>
      intro i0
      obtain ⟨h1, h2, h3, h4, h5, h6, h7⟩ := ih (i0 + 1)
      refine ⟨?_, ?_, ?_, ?_, ?_, ?_, ?_⟩
      · simpa [assignFrom] using h1
      · simpa [assignFrom] using h2
      · simpa [assignFrom] using h3
      · simpa [assignFrom] using h4
      · simpa [assignFrom] using h5
      · simpa [assignFrom] using h6
      · intro r hr
        unfold assignFrom at hr
        rcases List.mem_cons.mp hr with rfl | hr2
        · exact scoreRow_keys b.headline b.text (jF i0) (jN i0)
        · exact h7 r hr2

/-- The row of the C2 scenario: the claimed headline and empty text. -/
def rowC2 : Row :=
  ⟨some "Russia deepens military partnership with Mali", some "u2", some "",
   none, none, none, []⟩

theorem labelRaw_C2 :
    labelRaw (combinedText rowC2.headline rowC2.text) =
      [("Pro-Russia", 2/10), ("Anti-West", 0), ("Anti-France", 0), ("Anti-US", 0),
       ("Sensationalist", 0), ("Opinion", 0), ("Business", 0), ("Politics", 0)] := by
  simp +decide [rowC2, labelRaw, KEYWORD_LABELS, rawScore, List.foldl]

theorem strong_C2 :
    strongLabels (combinedText rowC2.headline rowC2.text) = false := by
  unfold strongLabels
  rw [labelRaw_C2]
  simp only [List.any_cons, List.any_nil, Bool.or_false, Bool.or_eq_false_iff,
    decide_eq_false_iff_not]
  norm_num

theorem scoreRow_C2 (jF jN : ℚ) (hF2 : jF ≤ 1/10) (hN2 : jN ≤ 1/10) :
    scoreRow rowC2.headline rowC2.text jF jN =
      [("Pro-Russia", 1/5), ("Anti-West", 0), ("Anti-France", 0), ("Anti-US", 0),
       ("Sensationalist", 0), ("Opinion", 0), ("Business", 0), ("Politics", 0),
       ("Factual", 7/10 + jF), ("Neutral", 6/10 + jN)] := by
  have hf : min (7/10 + jF) (1 : ℚ) = 7/10 + jF := min_eq_left (by linarith)
  have hn : min (6/10 + jN) (1 : ℚ) = 6/10 + jN := min_eq_left (by linarith)
  simp only [scoreRow, labelRaw_C2, strong_C2, Bool.false_eq_true, if_false,
    List.map_cons, List.map_nil, List.cons_append, List.nil_append, hf, hn]
  norm_num

/-- C2 (amended): on the claimed headline with empty text and no other
keyword hit, Pro-Russia scores exactly 0.2; since 0.2 is below the 0.3
strong-label threshold, Factual and Neutral do NOT remain 0.0 — they get the
jittered catch-all values 0.7 ± 0.1 and 0.6 ± 0.1, which are nonzero. -/
theorem spec_C2_scores (jF jN : Nat → ℚ)
    (hF1 : -(1/10) ≤ jF 0) (hF2 : jF 0 ≤ 1/10)
    (hN1 : -(1/10) ≤ jN 0) (hN2 : jN 0 ≤ 1/10) :
    (assign_labels_and_scores [rowC2] jF jN).map
        (fun r => alookup r.scores "Pro-Russia") = [some (2/10)] ∧
    (assign_labels_and_scores [rowC2] jF jN).map
        (fun r => alookup r.scores "Factual") = [some (7/10 + jF 0)] ∧
    (assign_labels_and_scores [rowC2] jF jN).map
        (fun r => alookup r.scores "Neutral") = [some (6/10 + jN 0)] ∧
    6/10 ≤ 7/10 + jF 0 ∧ 7/10 + jF 0 ≤ 8/10 ∧ 7/10 + jF 0 ≠ 0 ∧
    5/10 ≤ 6/10 + jN 0 ∧ 6/10 + jN 0 ≤ 7/10 ∧ 6/10 + jN 0 ≠ 0 := by
  have hsr := scoreRow_C2 (jF 0) (jN 0) hF2 hN2
  simp only [assign_labels_and_scores, assignFrom, List.map_cons, List.map_nil, hsr]
  refine ⟨?_, ?_, ?_, by linarith, by linarith, by intro hc; linarith [hF1, hc],
    by linarith, by linarith, by intro hc; linarith [hN1, hc]⟩ <;>
    · simp +decide [alookup]
      try norm_num

/-- Counterexample to C2 as stated: Pro-Russia scores only 0.2, below the
0.3 strong-label threshold, so Factual and Neutral are not left at 0.0: at
zero jitter they come out 0.7 and 0.6. -/
theorem spec_C2_cex :
    (assign_labels_and_scores [rowC2] (fun _ => 0) (fun _ => 0)).map
        (fun r => alookup r.scores "Factual") = [some (7/10)] ∧
    (assign_labels_and_scores [rowC2] (fun _ => 0) (fun _ => 0)).map
        (fun r => alookup r.scores "Neutral") = [some (6/10)] ∧
    (7/10 : ℚ) ≠ 0 ∧ (6/10 : ℚ) ≠ 0 := by
  have hsr := scoreRow_C2 0 0 (by norm_num) (by norm_num)
  simp only [assign_labels_and_scores, assignFrom, List.map_cons, List.map_nil, hsr]
  refine ⟨?_, ?_, by norm_num, by norm_num⟩ <;>
    · simp +decide [alookup]
      try norm_num

/-- Witness for C2 (amended), at zero jitter. -/
theorem spec_C2_witness :
    (assign_labels_and_scores [rowC2] (fun _ => (0 : ℚ)) (fun _ => (0 : ℚ))).map
        (fun r => alookup r.scores "Pro-Russia") = [some (2/10)] ∧
    (assign_labels_and_scores [rowC2] (fun _ => (0 : ℚ)) (fun _ => (0 : ℚ))).map
        (fun r => alookup r.scores "Factual") = [some (7/10 + 0)] ∧
    (assign_labels_and_scores [rowC2] (fun _ => (0 : ℚ)) (fun _ => (0 : ℚ))).map
        (fun r => alookup r.scores "Neutral") = [some (6/10 + 0)] ∧
    6/10 ≤ (7/10 : ℚ) + 0 ∧ (7/10 : ℚ) + 0 ≤ 8/10 ∧ (7/10 : ℚ) + 0 ≠ 0 ∧
    5/10 ≤ (6/10 : ℚ) + 0 ∧ (6/10 : ℚ) + 0 ≤ 7/10 ∧ (6/10 : ℚ) + 0 ≠ 0 :=
  spec_C2_scores (fun _ => 0) (fun _ => 0)
    (by norm_num) (by norm_num) (by norm_num) (by norm_num)

/-- Witness for C8 at a concrete row, zero jitter, and the Factual cell of
the produced score list. -/
theorem spec_C8_witness :
    0 ≤ (("Factual", (7 : ℚ)/10 + 0) : String × ℚ).2 ∧
    (("Factual", (7 : ℚ)/10 + 0) : String × ℚ).2 ≤ 1 := by
  have hmem1 : ({ rowC2 with scores := scoreRow rowC2.headline rowC2.text 0 0 } : Row) ∈
      assign_labels_and_scores [rowC2] (fun _ => 0) (fun _ => 0) := by
    simp [assign_labels_and_scores, assignFrom]
  have hmem2 : (("Factual", (7 : ℚ)/10 + 0) : String × ℚ) ∈
      ({ rowC2 with scores := scoreRow rowC2.headline rowC2.text 0 0 } : Row).scores := by
    rw [show ({ rowC2 with scores := scoreRow rowC2.headline rowC2.text 0 0 } : Row).scores
        = scoreRow rowC2.headline rowC2.text 0 0 from rfl]
    rw [scoreRow_C2 0 0 (by norm_num) (by norm_num)]
    simp
  exact spec_C8_scores_in_unit_interval [rowC2] (fun _ => 0) (fun _ => 0)
    (fun i => ⟨by norm_num, by norm_num⟩) (fun i => ⟨by norm_num, by norm_num⟩)
    _ hmem1 _ hmem2

/-- Counterexample to C6 as stated: the empty url is accepted by
`is_valid_image_url` (vacuously, it contains no blocked substring), and a
null url raises `AttributeError` rather than returning false. -/
theorem spec_C6_cex :
    is_valid_image_url "" = true ∧
    is_valid_image_url_opt none = .error "AttributeError" := by decide

/-- C6 (amended): `is_valid_image_url` is total on strings and rejects a url
exactly when its lower-cased form contains a blocked substring — hence the
spec's two examples behave as claimed, but the empty string is accepted and
a null input raises instead of returning false. -/
theorem spec_C6_validator :
    is_valid_image_url "https://cdn.site.com/logo-small.png" = false ∧
    is_valid_image_url "https://cdn.site.com/photo123.jpg" = true ∧
    ∀ url : String, is_valid_image_url url = false ↔
      ∃ w ∈ blocked, pyIn w (pyLower url) = true := by
  refine ⟨by decide, by decide, ?_⟩
  intro url
  unfold is_valid_image_url
  rw [List.all_eq_false]
  constructor
  · rintro ⟨w, hw, hnp⟩
    refine ⟨w, hw, ?_⟩
    simpa using hnp
  · rintro ⟨w, hw, hp⟩
    exact ⟨w, hw, by simp [hp]⟩

end CfA
